import Mathlib

/-!
Shallow embedding of the queue-management subsystem of the streatslivemenu
repository (`server.js`, queue endpoints; `QueueSystem` React component for
the client-side poller).

The SQLite tables `queues` and `queue_entries` are modelled as Lean lists in
rowid (insertion) order; `AUTOINCREMENT` ids are modelled by explicit
`next_queue_id` / `next_entry_id` counters starting at 1, as in SQLite.
`JSON.stringify`/`JSON.parse` of the items array is modelled as the identity
on the item list (the code round-trips it verbatim).  `CURRENT_TIMESTAMP`
values are threaded in as an explicit `now : Nat` argument.  Store I/O
failures (the 500 paths) are out of scope; every other branch of each handler
is translated.
-/

namespace StreatsQueue

/-- Ticket status values stored in `queue_entries.status`
(`waiting | preparing | ready | completed`). -/
inductive EntryStatus where
  | waiting
  | preparing
  | ready
  | completed
deriving DecidableEq

/-- One `{dishId, quantity, name, price}` cart-item snapshot. -/
structure Item where
  dishId : Int
  quantity : Int
  name : String
  price : ℚ
deriving DecidableEq

/-- A row of the `queues` table:
`queues(id, vendor_id, is_active, current_serving_number, ...)`. -/
structure QueueRow where
  id : Nat
  vendor_id : Int
  is_active : Bool
  current_serving_number : Int
deriving DecidableEq

/-- A row of the `queue_entries` table:
`queue_entries(id, queue_id, customer_name, queue_number, items, total_amount,
status, estimated_wait, created_at, updated_at)`. -/
structure QueueEntryRow where
  id : Nat
  queue_id : Nat
  customer_name : String
  queue_number : Nat
  items : List Item
  total_amount : ℚ
  status : EntryStatus
  estimated_wait : Nat
  created_at : Nat
  updated_at : Nat
deriving DecidableEq

/-- A row of the `vendors` table, restricted to the fields the presence gate
(§6 of the design) is backed by.  The queue endpoints of `server.js` never
read this table; it is carried in the state so that claims about vendor
presence can be stated. -/
structure VendorRow where
  id : Int
  isOnline : Bool
deriving DecidableEq

/-- The persistent store state. -/
structure Db where
  vendors : List VendorRow
  queues : List QueueRow
  queue_entries : List QueueEntryRow
  next_queue_id : Nat
  next_entry_id : Nat
deriving DecidableEq

/-- The empty database (fresh `streeteats.db`; SQLite rowids start at 1). -/
def initDb : Db :=
  { vendors := [], queues := [], queue_entries := [],
    next_queue_id := 1, next_entry_id := 1 }

/-- `SELECT * FROM queues WHERE vendor_id = ? AND is_active = 1` via `db.get`
(first matching row in rowid order). -/
def findActiveQueue (db : Db) (vendorId : Int) : Option QueueRow :=
  db.queues.find? (fun q => decide (q.vendor_id = vendorId ∧ q.is_active = true))

/-- Entries of one queue, in rowid (insertion) order:
rows with `queue_id = qid`. -/
def entriesOf (db : Db) (qid : Nat) : List QueueEntryRow :=
  db.queue_entries.filter (fun e => decide (e.queue_id = qid))

/-- The queue numbers assigned so far in one queue, in insertion order. -/
def entryNumbers (db : Db) (qid : Nat) : List Nat :=
  (entriesOf db qid).map (fun e => e.queue_number)

/-- `SELECT COUNT(*) FROM queue_entries WHERE queue_id = ? AND status = "waiting"`. -/
def countWaiting (db : Db) (qid : Nat) : Nat :=
  (db.queue_entries.filter
    (fun e => decide (e.queue_id = qid ∧ e.status = EntryStatus.waiting))).length

/-- The correlated subquery of the status endpoint:
`SELECT COUNT(*) FROM queue_entries qe2 WHERE qe2.queue_id = ... AND
qe2.status = 'waiting' AND qe2.queue_number < ...`. -/
def countWaitingBefore (db : Db) (qid : Nat) (qn : Nat) : Nat :=
  (db.queue_entries.filter
    (fun e => decide (e.queue_id = qid ∧ e.status = EntryStatus.waiting ∧
                      e.queue_number < qn))).length

/-- `(SELECT MAX(queue_number) ... WHERE queue_id = ?)` combined with the
handler's `result.maxNumber || 0` null-coalescing: the fold is `0` on an
empty queue, the maximum otherwise. -/
def maxQueueNumber (db : Db) (qid : Nat) : Nat :=
  (entriesOf db qid).foldl (fun m e => max m e.queue_number) 0

/-- Response of `GET /api/queue/:vendorId`. -/
structure QueueSummary where
  queueId : Nat
  vendorId : Int
  currentServingNumber : Int
  totalInQueue : Nat
  estimatedWait : Nat
deriving DecidableEq

/-- The fresh row inserted by
`INSERT INTO queues (vendor_id, is_active, current_serving_number) VALUES (?, 1, 0)`. -/
def newQueueRow (db : Db) (vendorId : Int) : QueueRow :=
  { id := db.next_queue_id, vendor_id := vendorId,
    is_active := true, current_serving_number := 0 }

/-- State after inserting a fresh queue row for `vendorId`. -/
def insertQueue (db : Db) (vendorId : Int) : Db :=
  { db with queues := db.queues ++ [newQueueRow db vendorId],
            next_queue_id := db.next_queue_id + 1 }

/-- `GET /api/queue/:vendorId` — fetch the active queue summary, lazily
creating the queue row when the vendor has none. -/
def getQueueEndpoint (db : Db) (vendorId : Int) : Db × QueueSummary :=
  match findActiveQueue db vendorId with
  | none =>
      (insertQueue db vendorId,
       { queueId := db.next_queue_id, vendorId := vendorId,
         currentServingNumber := 0, totalInQueue := 0, estimatedWait := 0 })
  | some q =>
      (db,
       { queueId := q.id, vendorId := q.vendor_id,
         currentServingNumber := q.current_serving_number,
         totalInQueue := countWaiting db q.id,
         estimatedWait := countWaiting db q.id * 5 })

/-- Body of `POST /api/queue/join`.  Each field is `none` when absent from the
request JSON (JavaScript `undefined`). -/
structure JoinRequest where
  vendorId : Option Int
  items : Option (List Item)
  totalAmount : Option ℚ
  customerName : Option String
deriving DecidableEq

/-- JavaScript truthiness of the destructured `vendorId` (a number in wellformed
requests): `undefined`/`null` and `0` are falsy. -/
def vendorIdTruthy : Option Int → Bool
  | none => false
  | some v => decide (v ≠ 0)

/-- JavaScript truthiness of `items`: absent is falsy; an array — even an
empty one — is truthy. -/
def itemsTruthy : Option (List Item) → Bool
  | none => false
  | some _ => true

/-- JavaScript truthiness of `totalAmount` (a number in wellformed requests):
absent is falsy, and so is `0`. -/
def totalAmountTruthy : Option ℚ → Bool
  | none => false
  | some t => decide (t ≠ 0)

/-- The join handler's guard `if (!vendorId || !items || !totalAmount)`. -/
def joinMissingFields (r : JoinRequest) : Bool :=
  !vendorIdTruthy r.vendorId || !itemsTruthy r.items || !totalAmountTruthy r.totalAmount

/-- Success payload of `POST /api/queue/join`. -/
structure JoinOk where
  queueEntryId : Nat
  queueNumber : Nat
  position : Nat
  estimatedWait : Nat
deriving DecidableEq

/-- Response of `POST /api/queue/join`: 400 on the validation guard, 200 with
the ticket otherwise. -/
inductive JoinResult where
  | badRequest
  | ok (r : JoinOk)
deriving DecidableEq

/-- The row inserted by the join handler's
`INSERT INTO queue_entries (...) VALUES (..., "waiting", ...)`. -/
def joinEntry (db : Db) (qid : Nat) (customerName : String)
    (items : List Item) (totalAmount : ℚ) (now : Nat) : QueueEntryRow :=
  { id := db.next_entry_id, queue_id := qid, customer_name := customerName,
    queue_number := maxQueueNumber db qid + 1, items := items,
    total_amount := totalAmount, status := EntryStatus.waiting,
    estimated_wait := (countWaiting db qid + 1) * 5,
    created_at := now, updated_at := now }

/-- The `processJoinQueue(queueId)` closure: read `MAX(queue_number)`, read the
waiting count, insert the entry with `status = "waiting"`, answer with the
assigned number, position and estimate. -/
def processJoinQueue (db : Db) (qid : Nat) (customerName : String)
    (items : List Item) (totalAmount : ℚ) (now : Nat) : Db × JoinOk :=
  ({ db with
      queue_entries := db.queue_entries ++ [joinEntry db qid customerName items totalAmount now],
      next_entry_id := db.next_entry_id + 1 },
   { queueEntryId := db.next_entry_id, queueNumber := maxQueueNumber db qid + 1,
     position := countWaiting db qid + 1,
     estimatedWait := (countWaiting db qid + 1) * 5 })

/-- `POST /api/queue/join`: validate the three fields by truthiness, find or
lazily create the vendor's active queue, then `processJoinQueue`. -/
def joinQueue (db : Db) (req : JoinRequest) (now : Nat) : Db × JoinResult :=
  if joinMissingFields req then (db, JoinResult.badRequest)
  else
    let vendorId := req.vendorId.getD 0
    let items := req.items.getD []
    let totalAmount := req.totalAmount.getD 0
    let customerName := req.customerName.getD "Customer"
    match findActiveQueue db vendorId with
    | none =>
        let db1 := insertQueue db vendorId
        let p := processJoinQueue db1 db.next_queue_id customerName items totalAmount now
        (p.1, JoinResult.ok p.2)
    | some q =>
        let p := processJoinQueue db q.id customerName items totalAmount now
        (p.1, JoinResult.ok p.2)

/-- Success payload of `GET /api/queue/status/:queueNumber/:vendorId`. -/
structure StatusOk where
  queueNumber : Nat
  position : Nat
  estimatedWait : Nat
  status : EntryStatus
  items : List Item
  totalAmount : ℚ
deriving DecidableEq

/-- Response of the status endpoint: 404 when the join finds no row. -/
inductive StatusResult where
  | notFound
  | ok (r : StatusOk)
deriving DecidableEq

/-- The `db.get` of the status endpoint: first row (in rowid order) of
`queue_entries qe JOIN queues q ON qe.queue_id = q.id
WHERE qe.queue_number = ? AND q.vendor_id = ?`. -/
def findStatusEntry (db : Db) (queueNumber : Nat) (vendorId : Int) :
    Option QueueEntryRow :=
  db.queue_entries.find? (fun e =>
    decide (e.queue_number = queueNumber) &&
    (db.queues.find? (fun q => decide (q.id = e.queue_id))).elim false
      (fun q => decide (q.vendor_id = vendorId)))

/-- `GET /api/queue/status/:queueNumber/:vendorId` — recompute the position
among still-waiting smaller numbers at read time; 404 when no entry matches.
Issues no writes: the state passes through unchanged. -/
def queueStatus (db : Db) (queueNumber : Nat) (vendorId : Int) :
    Db × StatusResult :=
  match findStatusEntry db queueNumber vendorId with
  | none => (db, StatusResult.notFound)
  | some e =>
      let pos := countWaitingBefore db e.queue_id e.queue_number + 1
      (db, StatusResult.ok
        { queueNumber := e.queue_number, position := pos,
          estimatedWait := pos * 5, status := e.status,
          items := e.items, totalAmount := e.total_amount })

/-- `GET /api/vendor/:vendorId/queue` — the vendor-facing list: entries of the
active queue with status `waiting` or `preparing`, ordered by `queue_number`
ascending.  Issues no writes. -/
def vendorQueueEndpoint (db : Db) (vendorId : Int) :
    Db × List QueueEntryRow :=
  match findActiveQueue db vendorId with
  | none => (db, [])
  | some q =>
      (db,
       (db.queue_entries.filter (fun e =>
          decide (e.queue_id = q.id ∧
            (e.status = EntryStatus.waiting ∨ e.status = EntryStatus.preparing)))).mergeSort
        (fun a b => decide (a.queue_number ≤ b.queue_number)))

/-- Response of `POST /api/vendor/queue/complete/:queueEntryId`: the handler
answers `res.json({ success: true, ... })` — HTTP 200 — on every id, matched
or not. -/
structure CompleteResponse where
  httpStatus : Nat
  success : Bool
deriving DecidableEq

/-- Per-row effect of the completion `UPDATE`: rows whose `id` matches get
`status = "completed"` and a fresh `updated_at`; every other row — and every
other column — is untouched. -/
def completeRow (queueEntryId : Nat) (now : Nat) (e : QueueEntryRow) :
    QueueEntryRow :=
  if e.id = queueEntryId then
    { e with status := EntryStatus.completed, updated_at := now }
  else e

/-- `POST /api/vendor/queue/complete/:queueEntryId` —
`UPDATE queue_entries SET status = "completed", updated_at = CURRENT_TIMESTAMP
WHERE id = ?`, then an unconditional success response. -/
def completeEntry (db : Db) (queueEntryId : Nat) (now : Nat) :
    Db × CompleteResponse :=
  ({ db with queue_entries := db.queue_entries.map (completeRow queueEntryId now) },
   { httpStatus := 200, success := true })

/-- States reachable from a fresh database through the queue endpoints. -/
inductive Reachable : Db → Prop where
  | init : Reachable initDb
  | getQueue (s : Db) (v : Int) : Reachable s → Reachable (getQueueEndpoint s v).1
  | join (s : Db) (req : JoinRequest) (now : Nat) :
      Reachable s → Reachable (joinQueue s req now).1
  | status (s : Db) (n : Nat) (v : Int) :
      Reachable s → Reachable (queueStatus s n v).1
  | vendorList (s : Db) (v : Int) :
      Reachable s → Reachable (vendorQueueEndpoint s v).1
  | complete (s : Db) (eid : Nat) (now : Nat) :
      Reachable s → Reachable (completeEntry s eid now).1

/-- Modelled from the spec: the Vendor Presence Gate (§6), an external
interface the queue code is said to consult.  `src/server.js` stores an
`isOnline` flag per vendor; a vendor is accepting orders when its row exists
and is online.  No queue endpoint in `server.js` reads this. -/
def vendorAcceptingOrders (db : Db) (vendorId : Int) : Bool :=
  (db.vendors.find? (fun v => decide (v.id = vendorId))).elim false
    (fun v => v.isOnline)

/-- Repeated sequential joins: perform `n` `POST /api/queue/join` calls with
the same body, collecting the returned `queueNumber`s in call order (`0`
recorded for a rejected call, which never happens for a valid body). -/
def joinN (s : Db) (req : JoinRequest) (now : Nat) : Nat → Db × List Nat
  | 0 => (s, [])
  | n + 1 =>
      let p := joinQueue s req now
      let num := match p.2 with
        | JoinResult.ok r => r.queueNumber
        | JoinResult.badRequest => 0
      let rest := joinN p.1 req now n
      (rest.1, num :: rest.2)

/-- Number of entries (any status) of the vendor's active queue; `0` when the
vendor has no queue yet.  Because entries are never deleted, this is the
number of join calls ever admitted for the vendor. -/
def vendorEntryCount (s : Db) (v : Int) : Nat :=
  match findActiveQueue s v with
  | none => 0
  | some q => (entriesOf s q.id).length

/-- The client poller's notification guard
(`if (previousPosition && data.position < previousPosition)`), evaluated on a
poll tick: `previousPosition` is the position held in the React state before
the tick (`null` before any observation), `responseOk` is `response.ok`, and
`newPosition` is the freshly fetched `data.position`. -/
def pollTickMovedUp (responseOk : Bool) (previousPosition : Option Int)
    (newPosition : Int) : Bool :=
  responseOk &&
    (match previousPosition with
     | none => false
     | some p => decide (p ≠ 0) && decide (newPosition < p))

/-- A concrete cart item, used to instantiate universally quantified theorems
on concrete runs. -/
def exampleItem : Item :=
  { dishId := 1, quantity := 2, name := "Taco", price := 6 }

/-- A concrete wellformed join body for vendor 5 ($12 total). -/
def exampleReq : JoinRequest :=
  { vendorId := some 5, items := some [exampleItem],
    totalAmount := some 12, customerName := none }

/-- A join body whose three required fields are all supplied, with a defined,
non-negative `totalAmount` of `0`. -/
def exampleReqZero : JoinRequest :=
  { vendorId := some 5, items := some [exampleItem],
    totalAmount := some 0, customerName := none }

/-! ## Generic list lemmas -/

theorem find?_eq_some_of_unique {α : Type _} {p : α → Bool} {l : List α} {a : α}
    (ha : a ∈ l) (hpa : p a = true) (huniq : ∀ x ∈ l, p x = true → x = a) :
    l.find? p = some a := by
  induction l with
  | nil => cases ha
  | cons b t ih =>
      by_cases hb : p b = true
      · have hba : b = a := huniq b (List.mem_cons_self b t) hb
        subst hba
        simp [List.find?_cons_of_pos _ hb]
      · have hb' : p b = false := by
          cases hpb : p b with
          | true => exact absurd hpb hb
          | false => rfl
        have ha' : a ∈ t := by
          rcases List.mem_cons.mp ha with h | h
          · subst h; rw [hpa] at hb'; cases hb'
          · exact h
        rw [List.find?_cons_of_neg _ (by simp [hb'])]
        exact ih ha' (fun x hx hpx => huniq x (List.mem_cons_of_mem _ hx) hpx)

theorem foldl_max_range' (k : Nat) :
    List.foldl (fun m n => max m n) 0 (List.range' 1 k) = k := by
  induction k with
  | zero => rfl
  | succ n ih =>
      rw [List.range'_concat, List.foldl_append, ih]
      simp [Nat.max_eq_right (Nat.le_succ n)]
      omega

/-! ## Basic facts about the store operations -/

theorem findActiveQueue_spec {s : Db} {v : Int} {q : QueueRow}
    (h : findActiveQueue s v = some q) :
    q ∈ s.queues ∧ q.vendor_id = v ∧ q.is_active = true := by
  refine ⟨List.mem_of_find?_eq_some h, ?_⟩
  have := List.find?_some h
  simpa using this

theorem findActiveQueue_none {s : Db} {v : Int}
    (h : findActiveQueue s v = none) :
    ∀ q ∈ s.queues, q.is_active = true → q.vendor_id ≠ v := by
  intro q hq hact hv
  have := List.find?_eq_none.mp h q hq
  simp [hv, hact] at this

theorem entriesOf_append_entry (s : Db) (e : QueueEntryRow) (l : List QueueEntryRow)
    (hs : l = s.queue_entries ++ [e]) (qid : Nat) :
    (l.filter (fun x => decide (x.queue_id = qid)))
      = entriesOf s qid ++ (if e.queue_id = qid then [e] else []) := by
  subst hs
  rw [List.filter_append]
  unfold entriesOf
  by_cases h : e.queue_id = qid <;> simp [h]

/-- The well-formedness invariant maintained by every endpoint.  The last
component is the queue-numbering law of the design: the numbers ever assigned
in a queue, in insertion order, are exactly `1, 2, …, N` where `N` is the
number of entries ever inserted into it. -/
structure Inv (s : Db) : Prop where
  csn_zero : ∀ q ∈ s.queues, q.current_serving_number = 0
  active : ∀ q ∈ s.queues, q.is_active = true
  qid_lt : ∀ q ∈ s.queues, q.id < s.next_queue_id
  qid_nodup : (s.queues.map (fun q => q.id)).Nodup
  vendor_nodup : (s.queues.map (fun q => q.vendor_id)).Nodup
  eid_lt : ∀ e ∈ s.queue_entries, e.id < s.next_entry_id
  eid_nodup : (s.queue_entries.map (fun e => e.id)).Nodup
  entry_queue : ∀ e ∈ s.queue_entries, ∃ q ∈ s.queues, q.id = e.queue_id
  numbers : ∀ qid : Nat, entryNumbers s qid = List.range' 1 (entriesOf s qid).length

theorem inv_init : Inv initDb := by
  constructor <;> simp [initDb, entryNumbers, entriesOf]

/-! ## Projection lemmas for the state transformers -/

theorem insertQueue_queues (s : Db) (v : Int) :
    (insertQueue s v).queues = s.queues ++ [newQueueRow s v] := rfl

theorem insertQueue_entries (s : Db) (v : Int) :
    (insertQueue s v).queue_entries = s.queue_entries := rfl

theorem processJoin_queues (s : Db) (qid : Nat) (c : String) (i : List Item)
    (t : ℚ) (now : Nat) : (processJoinQueue s qid c i t now).1.queues = s.queues := rfl

theorem processJoin_entries (s : Db) (qid : Nat) (c : String) (i : List Item)
    (t : ℚ) (now : Nat) :
    (processJoinQueue s qid c i t now).1.queue_entries
      = s.queue_entries ++ [joinEntry s qid c i t now] := rfl

theorem completeEntry_entries (s : Db) (eid now : Nat) :
    (completeEntry s eid now).1.queue_entries
      = s.queue_entries.map (completeRow eid now) := rfl

theorem completeEntry_queues (s : Db) (eid now : Nat) :
    (completeEntry s eid now).1.queues = s.queues := rfl

theorem queueStatus_state (s : Db) (n : Nat) (v : Int) :
    (queueStatus s n v).1 = s := by
  unfold queueStatus
  cases findStatusEntry s n v <;> rfl

theorem vendorQueue_state (s : Db) (v : Int) :
    (vendorQueueEndpoint s v).1 = s := by
  unfold vendorQueueEndpoint
  cases findActiveQueue s v <;> rfl

theorem completeRow_id (eid now : Nat) (e : QueueEntryRow) :
    (completeRow eid now e).id = e.id := by
  unfold completeRow
  by_cases h : e.id = eid <;> simp [h]

theorem completeRow_queue_id (eid now : Nat) (e : QueueEntryRow) :
    (completeRow eid now e).queue_id = e.queue_id := by
  unfold completeRow
  by_cases h : e.id = eid <;> simp [h]

theorem completeRow_queue_number (eid now : Nat) (e : QueueEntryRow) :
    (completeRow eid now e).queue_number = e.queue_number := by
  unfold completeRow
  by_cases h : e.id = eid <;> simp [h]

theorem filter_map_comm {α : Type _} (f : α → α) (p : α → Bool) (l : List α)
    (hp : ∀ x, p (f x) = p x) : (l.map f).filter p = (l.filter p).map f := by
  induction l with
  | nil => rfl
  | cons a t ih =>
      by_cases h : p a = true
      · simp [List.filter_cons, hp, h, ih]
      · simp [List.filter_cons, hp, h, ih]

theorem entriesOf_complete (s : Db) (eid now qid : Nat) :
    entriesOf (completeEntry s eid now).1 qid
      = (entriesOf s qid).map (completeRow eid now) := by
  unfold entriesOf
  rw [completeEntry_entries]
  exact filter_map_comm _ _ _ (fun x => by rw [completeRow_queue_id])

theorem entryNumbers_complete (s : Db) (eid now qid : Nat) :
    entryNumbers (completeEntry s eid now).1 qid = entryNumbers s qid := by
  unfold entryNumbers
  rw [entriesOf_complete, List.map_map]
  exact List.map_congr_left (fun e _ => by
    simp only [Function.comp]
    rw [completeRow_queue_number])

/-! ## Invariant preservation -/

theorem maxQueueNumber_eq {s : Db} (h : Inv s) (qid : Nat) :
    maxQueueNumber s qid = (entriesOf s qid).length := by
  have h1 := h.numbers qid
  calc maxQueueNumber s qid
      = List.foldl (fun m n => max m n) 0
          ((entriesOf s qid).map (fun e => e.queue_number)) := by
        unfold maxQueueNumber
        rw [List.foldl_map]
    _ = List.foldl (fun m n => max m n) 0
          (List.range' 1 (entriesOf s qid).length) := by
        rw [show (entriesOf s qid).map (fun e => e.queue_number)
              = entryNumbers s qid from rfl, h1]
    _ = (entriesOf s qid).length := foldl_max_range' _

theorem inv_insertQueue {s : Db} {v : Int} (h : Inv s)
    (hnone : findActiveQueue s v = none) : Inv (insertQueue s v) := by
  have hv : ∀ q ∈ s.queues, q.vendor_id ≠ v :=
    fun q hq => findActiveQueue_none hnone q hq (h.active q hq)
  refine ⟨?_, ?_, ?_, ?_, ?_, ?_, ?_, ?_, ?_⟩
  · intro q hq
    rcases List.mem_append.mp hq with hq | hq
    · exact h.csn_zero q hq
    · rw [List.mem_singleton.mp hq]; rfl
  · intro q hq
    rcases List.mem_append.mp hq with hq | hq
    · exact h.active q hq
    · rw [List.mem_singleton.mp hq]; rfl
  · intro q hq
    rcases List.mem_append.mp hq with hq | hq
    · exact Nat.lt_succ_of_lt (h.qid_lt q hq)
    · rw [List.mem_singleton.mp hq]; exact Nat.lt_succ_self _
  · rw [insertQueue_queues, List.map_append]
    simp only [List.map_cons, List.map_nil]
    rw [List.nodup_append]
    refine ⟨h.qid_nodup, List.nodup_singleton _, ?_⟩
    intro x hx hx'
    rcases List.mem_map.mp hx with ⟨q, hq, hqx⟩
    rcases List.mem_singleton.mp hx' with rfl
    have := h.qid_lt q hq
    rw [hqx] at this
    exact absurd rfl (Nat.ne_of_lt this)
  · rw [insertQueue_queues, List.map_append]
    simp only [List.map_cons, List.map_nil]
    rw [List.nodup_append]
    refine ⟨h.vendor_nodup, List.nodup_singleton _, ?_⟩
    intro x hx hx'
    rcases List.mem_map.mp hx with ⟨q, hq, hqx⟩
    rcases List.mem_singleton.mp hx' with rfl
    exact hv q hq hqx
  · intro e he; exact h.eid_lt e he
  · exact h.eid_nodup
  · intro e he
    rcases h.entry_queue e he with ⟨q, hq, hqe⟩
    exact ⟨q, List.mem_append.mpr (Or.inl hq), hqe⟩
  · intro qid
    exact h.numbers qid

theorem entriesOf_processJoin (s : Db) (qid : Nat) (c : String) (i : List Item)
    (t : ℚ) (now : Nat) (qid' : Nat) :
    entriesOf (processJoinQueue s qid c i t now).1 qid'
      = entriesOf s qid' ++ (if qid = qid' then [joinEntry s qid c i t now] else []) := by
  have := entriesOf_append_entry s (joinEntry s qid c i t now)
    (processJoinQueue s qid c i t now).1.queue_entries (processJoin_entries s qid c i t now) qid'
  unfold entriesOf at this ⊢
  rw [this]
  rfl

theorem inv_processJoin {s : Db} (h : Inv s) {qid : Nat}
    (hq : ∃ q ∈ s.queues, q.id = qid) (c : String) (i : List Item) (t : ℚ)
    (now : Nat) : Inv (processJoinQueue s qid c i t now).1 := by
  refine ⟨?_, ?_, ?_, ?_, ?_, ?_, ?_, ?_, ?_⟩
  · exact h.csn_zero
  · exact h.active
  · exact h.qid_lt
  · exact h.qid_nodup
  · exact h.vendor_nodup
  · intro e he
    rw [processJoin_entries] at he
    rcases List.mem_append.mp he with he | he
    · exact Nat.lt_succ_of_lt (h.eid_lt e he)
    · rw [List.mem_singleton.mp he]; exact Nat.lt_succ_self _
  · rw [processJoin_entries, List.map_append]
    simp only [List.map_cons, List.map_nil]
    rw [List.nodup_append]
    refine ⟨h.eid_nodup, List.nodup_singleton _, ?_⟩
    intro x hx hx'
    rcases List.mem_map.mp hx with ⟨e, he, hex⟩
    rcases List.mem_singleton.mp hx' with rfl
    have := h.eid_lt e he
    rw [hex] at this
    exact absurd rfl (Nat.ne_of_lt this)
  · intro e he
    rw [processJoin_entries] at he
    rcases List.mem_append.mp he with he | he
    · exact h.entry_queue e he
    · rw [List.mem_singleton.mp he]
      rcases hq with ⟨q, hqmem, hqid⟩
      exact ⟨q, hqmem, hqid⟩
  · intro qid'
    unfold entryNumbers
    rw [entriesOf_processJoin]
    by_cases hcase : qid = qid'
    · subst hcase
      rw [if_pos rfl, List.map_append, List.length_append]
      have hn := h.numbers qid
      unfold entryNumbers at hn
      rw [hn]
      simp only [joinEntry, List.map_cons, List.map_nil, List.length_cons,
        List.length_nil]
      rw [maxQueueNumber_eq h, List.range'_concat]
      congr 1
      simp
      omega
    · rw [if_neg hcase]
      simp only [List.append_nil]
      exact h.numbers qid'

theorem inv_complete {s : Db} (h : Inv s) (eid now : Nat) :
    Inv (completeEntry s eid now).1 := by
  refine ⟨?_, ?_, ?_, ?_, ?_, ?_, ?_, ?_, ?_⟩
  · exact h.csn_zero
  · exact h.active
  · exact h.qid_lt
  · exact h.qid_nodup
  · exact h.vendor_nodup
  · intro e he
    rw [completeEntry_entries] at he
    rcases List.mem_map.mp he with ⟨x, hx, hxe⟩
    rw [← hxe, completeRow_id]
    exact h.eid_lt x hx
  · rw [completeEntry_entries, List.map_map]
    have : (fun e => QueueEntryRow.id e) ∘ completeRow eid now
        = fun e => QueueEntryRow.id e := by
      funext e
      simp only [Function.comp]
      rw [completeRow_id]
    rw [this]
    exact h.eid_nodup
  · intro e he
    rw [completeEntry_entries] at he
    rcases List.mem_map.mp he with ⟨x, hx, hxe⟩
    rcases h.entry_queue x hx with ⟨q, hqmem, hqid⟩
    refine ⟨q, by rw [completeEntry_queues]; exact hqmem, ?_⟩
    rw [← hxe, completeRow_queue_id]
    exact hqid
  · intro qid
    rw [entryNumbers_complete]
    have : (entriesOf (completeEntry s eid now).1 qid).length
        = (entriesOf s qid).length := by
      rw [entriesOf_complete, List.length_map]
    rw [this]
    exact h.numbers qid

theorem inv_getQueue {s : Db} (h : Inv s) (v : Int) :
    Inv (getQueueEndpoint s v).1 := by
  unfold getQueueEndpoint
  cases hfind : findActiveQueue s v with
  | none => exact inv_insertQueue h hfind
  | some q => exact h

theorem inv_join {s : Db} (h : Inv s) (req : JoinRequest) (now : Nat) :
    Inv (joinQueue s req now).1 := by
  unfold joinQueue
  by_cases hval : joinMissingFields req = true
  · simp only [hval, if_true]
    exact h
  · simp only [Bool.not_eq_true] at hval
    simp only [hval, Bool.false_eq_true, if_false]
    cases hfind : findActiveQueue s (req.vendorId.getD 0) with
    | none =>
        have h1 := inv_insertQueue h hfind
        refine inv_processJoin h1 ?_ _ _ _ _
        exact ⟨newQueueRow s (req.vendorId.getD 0),
          List.mem_append.mpr (Or.inr (List.mem_singleton.mpr rfl)), rfl⟩
    | some q =>
        refine inv_processJoin h ?_ _ _ _ _
        exact ⟨q, (findActiveQueue_spec hfind).1, rfl⟩

theorem findActiveQueue_congr {s s' : Db} (hq : s'.queues = s.queues) (v : Int) :
    findActiveQueue s' v = findActiveQueue s v := by
  unfold findActiveQueue
  rw [hq]

theorem entriesOf_fresh {s : Db} (h : Inv s) : entriesOf s s.next_queue_id = [] := by
  unfold entriesOf
  rw [List.filter_eq_nil_iff]
  intro e he
  simp only [decide_eq_true_eq]
  intro hcontra
  rcases h.entry_queue e he with ⟨q, hqmem, hqid⟩
  have := h.qid_lt q hqmem
  omega

theorem maxQueueNumber_fresh {s : Db} (h : Inv s) :
    maxQueueNumber s s.next_queue_id = 0 := by
  unfold maxQueueNumber
  rw [entriesOf_fresh h]
  rfl

theorem countWaiting_fresh {s : Db} (h : Inv s) :
    countWaiting s s.next_queue_id = 0 := by
  unfold countWaiting
  rw [List.length_eq_zero, List.filter_eq_nil_iff]
  intro e he
  simp only [decide_eq_true_eq, not_and]
  intro hcontra
  rcases h.entry_queue e he with ⟨q, hqmem, hqid⟩
  have := h.qid_lt q hqmem
  omega

theorem inv_reachable {s : Db} (h : Reachable s) : Inv s := by
  induction h with
  | init => exact inv_init
  | getQueue s v _ ih => exact inv_getQueue ih v
  | join s req now _ ih => exact inv_join ih req now
  | status s n v _ ih => rw [queueStatus_state]; exact ih
  | vendorList s v _ ih => rw [vendorQueue_state]; exact ih
  | complete s eid now _ ih => exact inv_complete ih eid now

/-- One admitted join, described from the pre-state: the vendor's active queue
`q` is found (or freshly created), the response carries the next entry id, the
queue number `MAX+1`, the waiting count plus one as position, and five minutes
per position; the new row is appended; and both `MAX` and the per-vendor entry
count step as a counter. -/
theorem joinQueue_step {s : Db} (h : Inv s) (req : JoinRequest) (v : Int)
    (now : Nat) (hval : joinMissingFields req = false)
    (hv : req.vendorId = some v) :
    ∃ q : QueueRow,
      findActiveQueue (joinQueue s req now).1 v = some q ∧
      (joinQueue s req now).2 = JoinResult.ok
        { queueEntryId := s.next_entry_id,
          queueNumber := maxQueueNumber s q.id + 1,
          position := countWaiting s q.id + 1,
          estimatedWait := (countWaiting s q.id + 1) * 5 } ∧
      (joinQueue s req now).1.queue_entries
        = s.queue_entries ++ [joinEntry s q.id (req.customerName.getD "Customer")
            (req.items.getD []) (req.totalAmount.getD 0) now] ∧
      maxQueueNumber s q.id = vendorEntryCount s v ∧
      vendorEntryCount (joinQueue s req now).1 v = vendorEntryCount s v + 1 := by
  unfold joinQueue
  rw [if_neg (by simp [hval]), hv]
  simp only [Option.getD_some]
  cases hfind : findActiveQueue s v with
  | some q =>
      refine ⟨q, ?_, rfl, rfl, ?_, ?_⟩
      · rw [findActiveQueue_congr (processJoin_queues s q.id _ _ _ now) v]
        exact hfind
      · unfold vendorEntryCount
        rw [hfind, maxQueueNumber_eq h]
      · unfold vendorEntryCount
        rw [findActiveQueue_congr (processJoin_queues s q.id _ _ _ now) v, hfind]
        dsimp only
        rw [entriesOf_processJoin, if_pos rfl, List.length_append]
        rfl
  | none =>
      refine ⟨newQueueRow s v, ?_, rfl, rfl, ?_, ?_⟩
      · rw [findActiveQueue_congr
          (processJoin_queues (insertQueue s v) s.next_queue_id _ _ _ now) v]
        unfold findActiveQueue
        rw [insertQueue_queues, List.find?_append]
        unfold findActiveQueue at hfind
        rw [hfind]
        simp [newQueueRow]
      · show maxQueueNumber s s.next_queue_id = vendorEntryCount s v
        unfold vendorEntryCount
        rw [hfind, maxQueueNumber_fresh h]
      · unfold vendorEntryCount
        rw [findActiveQueue_congr
          (processJoin_queues (insertQueue s v) s.next_queue_id _ _ _ now) v]
        have hnq : findActiveQueue (insertQueue s v) v = some (newQueueRow s v) := by
          unfold findActiveQueue
          rw [insertQueue_queues, List.find?_append]
          unfold findActiveQueue at hfind
          rw [hfind]
          simp [newQueueRow]
        rw [hnq, hfind]
        dsimp only
        rw [entriesOf_processJoin,
          if_pos (show s.next_queue_id = (newQueueRow s v).id from rfl),
          List.length_append]
        have hfr : entriesOf (insertQueue s v) (newQueueRow s v).id
            = entriesOf s s.next_queue_id := rfl
        rw [hfr, entriesOf_fresh h]
        rfl

/-- Sequential joins against one vendor behave as a counter: call `k` of the
run returns queue number `k` offset by the entries already present. -/
theorem joinN_spec {s : Db} (h : Reachable s) (req : JoinRequest) (v : Int)
    (now : Nat) (hval : joinMissingFields req = false)
    (hv : req.vendorId = some v) (N : Nat) :
    (joinN s req now N).2 = List.range' (vendorEntryCount s v + 1) N ∧
    Reachable (joinN s req now N).1 ∧
    vendorEntryCount (joinN s req now N).1 v = vendorEntryCount s v + N := by
  induction N generalizing s with
  | zero => exact ⟨rfl, h, rfl⟩
  | succ n ih =>
      obtain ⟨q, hfq, hres, hentries, hmax, hcount⟩ :=
        joinQueue_step (inv_reachable h) req v now hval hv
      have h1 : Reachable (joinQueue s req now).1 := Reachable.join s req now h
      obtain ⟨ih1, ih2, ih3⟩ := ih h1
      refine ⟨?_, ih2, ?_⟩
      · show (match (joinQueue s req now).2 with
            | JoinResult.ok r => r.queueNumber
            | JoinResult.badRequest => 0)
            :: (joinN (joinQueue s req now).1 req now n).2
          = List.range' (vendorEntryCount s v + 1) (n + 1)
        rw [hres]
        dsimp only
        rw [hmax, ih1, hcount, List.range'_succ]
      · show vendorEntryCount (joinN (joinQueue s req now).1 req now n).1 v
          = vendorEntryCount s v + (n + 1)
        rw [ih3, hcount]
        omega

/-! ## Claims -/

/-- C1: starting from any reachable state in which the vendor's queue has no
entries yet, N sequential (serialized) join calls return queue numbers exactly
`1..N` in call order; afterwards the numbers assigned in that queue, in
insertion order, are exactly `1..N` — none skipped, reused or duplicated —
and completing tickets never changes the assigned numbers of any queue (each
new number being one greater than the maximum ever issued, `0` if none, is
the `MAX(queue_number)+1` step proved inside). -/
theorem c1_sequential_join_numbers (s : Db) (h : Reachable s)
    (req : JoinRequest) (v : Int) (now N : Nat)
    (hval : joinMissingFields req = false) (hv : req.vendorId = some v)
    (hfresh : vendorEntryCount s v = 0) :
    (joinN s req now N).2 = List.range' 1 N ∧
    (∀ q : QueueRow, findActiveQueue (joinN s req now N).1 v = some q →
        entryNumbers (joinN s req now N).1 q.id = List.range' 1 N) ∧
    (∀ eid now2 qid : Nat,
        entryNumbers (completeEntry (joinN s req now N).1 eid now2).1 qid
          = entryNumbers (joinN s req now N).1 qid) := by
  obtain ⟨h1, h2, h3⟩ := joinN_spec h req v now hval hv N
  rw [hfresh] at h1 h3
  refine ⟨by simpa using h1, ?_, ?_⟩
  · intro q hq
    have hin := inv_reachable h2
    have hnum := hin.numbers q.id
    unfold vendorEntryCount at h3
    rw [hq] at h3
    dsimp only at h3
    rw [hnum, h3]
    norm_num
  · intro eid now2 qid
    exact entryNumbers_complete _ eid now2 qid

theorem c1_sequential_join_numbers_witness :
    (joinN initDb exampleReq 0 3).2 = List.range' 1 3 :=
  (c1_sequential_join_numbers initDb Reachable.init exampleReq 5 0 3
    (by decide) (by decide) (by decide)).1

/-- C9: in every state reachable through the exposed API operations, every
queue row's `current_serving_number` is `0` (it is created as `0` and no
operation — in particular not `complete`, which touches no queue row — ever
writes it). -/
theorem c9_current_serving_number_zero (s : Db) (h : Reachable s)
    (eid now : Nat) :
    (∀ q ∈ s.queues, q.current_serving_number = 0) ∧
    (completeEntry s eid now).1.queues = s.queues := by
  exact ⟨(inv_reachable h).csn_zero, completeEntry_queues s eid now⟩

theorem c9_current_serving_number_zero_witness :
    ({ id := 1, vendor_id := 5, is_active := true, current_serving_number := 0 } :
        QueueRow).current_serving_number = 0 :=
  (c9_current_serving_number_zero (getQueueEndpoint initDb 5).1
    (Reachable.getQueue initDb 5 Reachable.init) 1 0).1 _ (by decide)

theorem countWaitingBefore_max {s : Db} (h : Inv s) (qid : Nat) :
    countWaitingBefore s qid (maxQueueNumber s qid + 1) = countWaiting s qid := by
  unfold countWaitingBefore countWaiting
  congr 1
  apply List.filter_congr
  intro x hx
  by_cases hq : x.queue_id = qid
  · have hxin : x ∈ entriesOf s qid := List.mem_filter.mpr ⟨hx, by simp [hq]⟩
    have hmem : x.queue_number ∈ entryNumbers s qid :=
      List.mem_map.mpr ⟨x, hxin, rfl⟩
    rw [h.numbers qid] at hmem
    have hlt := (List.mem_range'_1.mp hmem).2
    rw [maxQueueNumber_eq h, decide_eq_decide]
    constructor
    · rintro ⟨a, b, _⟩; exact ⟨a, b⟩
    · rintro ⟨a, b⟩; exact ⟨a, b, by omega⟩
  · rw [decide_eq_decide]
    simp [hq]

theorem countWaitingBefore_append_at {s post : Db} {e : QueueEntryRow}
    {qid qn : Nat} (hpost : post.queue_entries = s.queue_entries ++ [e])
    (hqn : e.queue_number = qn) :
    countWaitingBefore post qid qn = countWaitingBefore s qid qn := by
  unfold countWaitingBefore
  rw [hpost, List.filter_append]
  have : (List.filter (fun x => decide (x.queue_id = qid ∧
      x.status = EntryStatus.waiting ∧ x.queue_number < qn)) [e]) = [] := by
    simp [hqn]
  rw [this, List.append_nil]

/-- C4: every admitted join returns a `position` equal to this ticket's own
1-indexed rank among currently-waiting tickets at the moment of admission
(`countWaitingBefore(queueId, queueNumber) + 1`, read in the state the join
produced) and `estimatedWait = position * 5`; in particular, on an empty
queue the first two joins return `{queueNumber:1, position:1, estimatedWait:5}`
and `{queueNumber:2, position:2, estimatedWait:10}`. -/
theorem c4_join_position (s : Db) (h : Reachable s) (req : JoinRequest)
    (v : Int) (now : Nat) (hval : joinMissingFields req = false)
    (hv : req.vendorId = some v) :
    (∃ q : QueueRow, ∃ r : JoinOk,
      (joinQueue s req now).2 = JoinResult.ok r ∧
      findActiveQueue (joinQueue s req now).1 v = some q ∧
      (∃ e ∈ (joinQueue s req now).1.queue_entries,
        e.id = r.queueEntryId ∧ e.queue_id = q.id ∧
        e.queue_number = r.queueNumber ∧ e.status = EntryStatus.waiting) ∧
      r.position = countWaitingBefore (joinQueue s req now).1 q.id r.queueNumber + 1 ∧
      r.estimatedWait = r.position * 5) ∧
    (joinQueue initDb exampleReq 0).2 = JoinResult.ok
      { queueEntryId := 1, queueNumber := 1, position := 1, estimatedWait := 5 } ∧
    (joinQueue (joinQueue initDb exampleReq 0).1 exampleReq 0).2 = JoinResult.ok
      { queueEntryId := 2, queueNumber := 2, position := 2, estimatedWait := 10 } := by
  refine ⟨?_, by decide, by decide⟩
  obtain ⟨q, hfq, hres, hentries, hmax, hcount⟩ :=
    joinQueue_step (inv_reachable h) req v now hval hv
  refine ⟨q, _, hres, hfq, ?_, ?_, rfl⟩
  · refine ⟨joinEntry s q.id (req.customerName.getD "Customer")
      (req.items.getD []) (req.totalAmount.getD 0) now, ?_, rfl, rfl, rfl, rfl⟩
    rw [hentries]
    exact List.mem_append.mpr (Or.inr (List.mem_singleton.mpr rfl))
  · show countWaiting s q.id + 1
      = countWaitingBefore (joinQueue s req now).1 q.id (maxQueueNumber s q.id + 1) + 1
    rw [countWaitingBefore_append_at hentries
        (show (joinEntry s q.id (req.customerName.getD "Customer")
          (req.items.getD []) (req.totalAmount.getD 0) now).queue_number
            = maxQueueNumber s q.id + 1 from rfl),
      countWaitingBefore_max (inv_reachable h)]

theorem c4_join_position_witness :
    (joinQueue initDb exampleReq 0).2 = JoinResult.ok
      { queueEntryId := 1, queueNumber := 1, position := 1, estimatedWait := 5 } :=
  (c4_join_position initDb Reachable.init exampleReq 5 0
    (by decide) (by decide)).2.1

/-- The status endpoint's JOIN lookup finds exactly the entry itself: within a
wellformed store, `(queue_number, vendor_id)` identifies at most one row. -/
theorem findStatusEntry_eq {s : Db} (h : Inv s) {e : QueueEntryRow}
    {q : QueueRow} (he : e ∈ s.queue_entries) (hq : q ∈ s.queues)
    (hqe : q.id = e.queue_id) :
    findStatusEntry s e.queue_number q.vendor_id = some e := by
  have hfq : s.queues.find? (fun qq => decide (qq.id = e.queue_id)) = some q := by
    apply find?_eq_some_of_unique hq
    · simp [hqe]
    · intro x hx hpx
      simp only [decide_eq_true_eq] at hpx
      exact List.inj_on_of_nodup_map h.qid_nodup hx hq (by rw [hpx, hqe])
  unfold findStatusEntry
  apply find?_eq_some_of_unique he
  · show (decide (e.queue_number = e.queue_number) && _) = true
    rw [hfq]
    simp
  · intro x hx hpx
    simp only [Bool.and_eq_true, decide_eq_true_eq] at hpx
    obtain ⟨hxn, helim⟩ := hpx
    cases hfx : s.queues.find? (fun qq => decide (qq.id = x.queue_id)) with
    | none => rw [hfx] at helim; simp at helim
    | some q' =>
        rw [hfx] at helim
        simp only [Option.elim, decide_eq_true_eq] at helim
        have hq'mem := List.mem_of_find?_eq_some hfx
        have hq'id : q'.id = x.queue_id := by simpa using List.find?_some hfx
        have hqq : q' = q :=
          List.inj_on_of_nodup_map h.vendor_nodup hq'mem hq helim
        have hxqid : x.queue_id = e.queue_id := by rw [← hq'id, hqq, hqe]
        have hxin : x ∈ entriesOf s e.queue_id :=
          List.mem_filter.mpr ⟨hx, by simp [hxqid]⟩
        have hein : e ∈ entriesOf s e.queue_id :=
          List.mem_filter.mpr ⟨he, by simp⟩
        have hnodup : (entryNumbers s e.queue_id).Nodup := by
          rw [h.numbers]; exact List.nodup_range' _ _
        exact List.inj_on_of_nodup_map hnodup hxin hein hxn

/-- Completing one still-waiting earlier ticket drops the recomputed waiting
count before a given number by exactly one. -/
theorem countWaitingBefore_complete {s : Db} (h : Inv s) {e' : QueueEntryRow}
    (he' : e' ∈ s.queue_entries) (hw : e'.status = EntryStatus.waiting)
    {qid qn : Nat} (hqid : e'.queue_id = qid) (hlt : e'.queue_number < qn)
    (now : Nat) :
    countWaitingBefore (completeEntry s e'.id now).1 qid qn + 1
      = countWaitingBefore s qid qn := by
  obtain ⟨l1, l2, hsplit⟩ := List.append_of_mem he'
  have hids : ∀ x ∈ l1 ++ l2, x.id ≠ e'.id := by
    have hnodup := h.eid_nodup
    rw [hsplit, List.map_append, List.map_cons, List.nodup_middle,
      List.nodup_cons] at hnodup
    intro x hx hxid
    exact hnodup.1 (by
      rw [← List.map_append]
      exact List.mem_map.mpr ⟨x, hx, hxid⟩)
  have hcrl1 : l1.map (completeRow e'.id now) = l1 := by
    have hfix : ∀ x ∈ l1, completeRow e'.id now x = id x := fun x hx => by
      unfold completeRow
      rw [if_neg (hids x (List.mem_append_left _ hx))]
      rfl
    rw [List.map_congr_left hfix, List.map_id]
  have hcrl2 : l2.map (completeRow e'.id now) = l2 := by
    have hfix : ∀ x ∈ l2, completeRow e'.id now x = id x := fun x hx => by
      unfold completeRow
      rw [if_neg (hids x (List.mem_append_right _ hx))]
      rfl
    rw [List.map_congr_left hfix, List.map_id]
  have hpce : decide ((completeRow e'.id now e').queue_id = qid ∧
      (completeRow e'.id now e').status = EntryStatus.waiting ∧
      (completeRow e'.id now e').queue_number < qn) = false := by
    unfold completeRow
    rw [if_pos rfl]
    simp
  have hpe' : (decide (e'.queue_id = qid ∧ e'.status = EntryStatus.waiting ∧
      e'.queue_number < qn)) = true := by
    simp [hqid, hw, hlt]
  unfold countWaitingBefore
  rw [completeEntry_entries, hsplit, List.map_append, List.map_cons,
    hcrl1, hcrl2, List.filter_append, List.filter_cons,
    List.filter_append, List.filter_cons, hpce, hpe']
  simp only [Bool.false_eq_true, if_false, if_true, List.length_append,
    List.length_cons]
  omega

/-- C3: for every existing queue entry, the status endpoint answers with
`position = 1 + (number of waiting entries of the same queue with a strictly
smaller queue number)` recomputed at read time, and
`estimatedWait = position * 5`; and the value is dynamic — after an earlier
still-waiting ticket completes, the same lookup returns a position exactly one
lower (with the wait law preserved). -/
theorem c3_status_recomputes_position (s : Db) (h : Reachable s)
    (e : QueueEntryRow) (q : QueueRow) (he : e ∈ s.queue_entries)
    (hq : q ∈ s.queues) (hqe : q.id = e.queue_id) (now : Nat) :
    queueStatus s e.queue_number q.vendor_id
      = (s, StatusResult.ok
          { queueNumber := e.queue_number,
            position := countWaitingBefore s e.queue_id e.queue_number + 1,
            estimatedWait := (countWaitingBefore s e.queue_id e.queue_number + 1) * 5,
            status := e.status, items := e.items,
            totalAmount := e.total_amount }) ∧
    (∀ e' ∈ s.queue_entries, e'.queue_id = e.queue_id →
      e'.status = EntryStatus.waiting → e'.queue_number < e.queue_number →
      queueStatus (completeEntry s e'.id now).1 e.queue_number q.vendor_id
        = ((completeEntry s e'.id now).1, StatusResult.ok
            { queueNumber := e.queue_number,
              position := countWaitingBefore s e.queue_id e.queue_number,
              estimatedWait := countWaitingBefore s e.queue_id e.queue_number * 5,
              status := e.status, items := e.items,
              totalAmount := e.total_amount })) := by
  have hinv := inv_reachable h
  constructor
  · unfold queueStatus
    rw [findStatusEntry_eq hinv he hq hqe]
  · intro e' he' hqid hw hlt
    have hne : e' ≠ e := fun hcon => by
      rw [hcon] at hlt
      exact absurd hlt (lt_irrefl _)
    have hid : e'.id ≠ e.id := fun hcon =>
      hne (List.inj_on_of_nodup_map hinv.eid_nodup he' he hcon)
    have hce : completeRow e'.id now e = e := by
      unfold completeRow
      rw [if_neg (fun hcon => hid hcon.symm)]
    have hemem : e ∈ (completeEntry s e'.id now).1.queue_entries := by
      rw [completeEntry_entries]
      exact List.mem_map.mpr ⟨e, he, hce⟩
    have hqmem : q ∈ (completeEntry s e'.id now).1.queues := by
      rw [completeEntry_queues]
      exact hq
    have hinv' := inv_complete hinv e'.id now
    have hcnt := countWaitingBefore_complete hinv he' hw hqid hlt now
    unfold queueStatus
    rw [findStatusEntry_eq hinv' hemem hqmem hqe]
    dsimp only
    rw [hcnt]

theorem c3_status_recomputes_position_witness :
    queueStatus (joinQueue initDb exampleReq 0).1
        (joinEntry initDb 1 "Customer" [exampleItem] 12 0).queue_number
        ({ id := 1, vendor_id := 5, is_active := true,
           current_serving_number := 0 } : QueueRow).vendor_id
      = ((joinQueue initDb exampleReq 0).1, StatusResult.ok
          { queueNumber := 1, position := 1, estimatedWait := 5,
            status := EntryStatus.waiting, items := [exampleItem],
            totalAmount := 12 }) :=
  (c3_status_recomputes_position (joinQueue initDb exampleReq 0).1
    (Reachable.join initDb exampleReq 0 Reachable.init)
    (joinEntry initDb 1 "Customer" [exampleItem] 12 0)
    { id := 1, vendor_id := 5, is_active := true, current_serving_number := 0 }
    (by decide) (by decide) (by decide) 0).1

/-- In a wellformed store, splitting the entry list at a member isolates its
id: no other entry shares it. -/
theorem ids_ne_of_split {s : Db} (h : Inv s) {e : QueueEntryRow}
    {l1 l2 : List QueueEntryRow} (hsplit : s.queue_entries = l1 ++ e :: l2) :
    ∀ x ∈ l1 ++ l2, x.id ≠ e.id := by
  have hnodup := h.eid_nodup
  rw [hsplit, List.map_append, List.map_cons, List.nodup_middle,
    List.nodup_cons] at hnodup
  intro x hx hxid
  exact hnodup.1 (by
    rw [← List.map_append]
    exact List.mem_map.mpr ⟨x, hx, hxid⟩)

/-- C7: `complete(queueEntryId)` on an existing entry rewrites exactly that
entry, setting `status := completed` (and, being the only other write of the
`UPDATE`, `updated_at`); `queue_id`, `customer_name`, `queue_number`, `items`,
`total_amount`, `estimated_wait` and `created_at` are untouched, every other
entry is untouched, and no queue (or vendor) row changes. -/
theorem c7_complete_frame (s : Db) (h : Reachable s) (e : QueueEntryRow)
    (he : e ∈ s.queue_entries) (now : Nat) :
    ∃ l1 l2 : List QueueEntryRow,
      s.queue_entries = l1 ++ e :: l2 ∧
      (completeEntry s e.id now).1.queue_entries
        = l1 ++ { e with status := EntryStatus.completed,
                         updated_at := now } :: l2 ∧
      (completeEntry s e.id now).1.queues = s.queues ∧
      (completeEntry s e.id now).1.vendors = s.vendors ∧
      (completeEntry s e.id now).2 = { httpStatus := 200, success := true } := by
  obtain ⟨l1, l2, hsplit⟩ := List.append_of_mem he
  have hids := ids_ne_of_split (inv_reachable h) hsplit
  refine ⟨l1, l2, hsplit, ?_, rfl, rfl, rfl⟩
  rw [completeEntry_entries, hsplit, List.map_append, List.map_cons]
  have hcrl1 : l1.map (completeRow e.id now) = l1 := by
    have hfix : ∀ x ∈ l1, completeRow e.id now x = id x := fun x hx => by
      unfold completeRow
      rw [if_neg (hids x (List.mem_append_left _ hx))]
      rfl
    rw [List.map_congr_left hfix, List.map_id]
  have hcrl2 : l2.map (completeRow e.id now) = l2 := by
    have hfix : ∀ x ∈ l2, completeRow e.id now x = id x := fun x hx => by
      unfold completeRow
      rw [if_neg (hids x (List.mem_append_right _ hx))]
      rfl
    rw [List.map_congr_left hfix, List.map_id]
  rw [hcrl1, hcrl2]
  have hce : completeRow e.id now e
      = { e with status := EntryStatus.completed, updated_at := now } := by
    unfold completeRow
    rw [if_pos rfl]
  rw [hce]

theorem c7_complete_frame_witness :
    ∃ l1 l2 : List QueueEntryRow,
      (joinQueue initDb exampleReq 0).1.queue_entries
        = l1 ++ joinEntry initDb 1 "Customer" [exampleItem] 12 0 :: l2 ∧
      (completeEntry (joinQueue initDb exampleReq 0).1
          (joinEntry initDb 1 "Customer" [exampleItem] 12 0).id 7).1.queue_entries
        = l1 ++ { joinEntry initDb 1 "Customer" [exampleItem] 12 0 with
                    status := EntryStatus.completed, updated_at := 7 } :: l2 ∧
      (completeEntry (joinQueue initDb exampleReq 0).1
          (joinEntry initDb 1 "Customer" [exampleItem] 12 0).id 7).1.queues
        = (joinQueue initDb exampleReq 0).1.queues ∧
      (completeEntry (joinQueue initDb exampleReq 0).1
          (joinEntry initDb 1 "Customer" [exampleItem] 12 0).id 7).1.vendors
        = (joinQueue initDb exampleReq 0).1.vendors ∧
      (completeEntry (joinQueue initDb exampleReq 0).1
          (joinEntry initDb 1 "Customer" [exampleItem] 12 0).id 7).2
        = { httpStatus := 200, success := true } :=
  c7_complete_frame (joinQueue initDb exampleReq 0).1
    (Reachable.join initDb exampleReq 0 Reachable.init)
    (joinEntry initDb 1 "Customer" [exampleItem] 12 0) (by decide) 7

/-- C8: completion is idempotent — after a first `complete`, a second call on
the same id changes no entry's status (the entry stays `completed`), and the
second call still reports success (HTTP 200), a safe no-op rather than a
destructive error. -/
theorem c8_complete_idempotent (s : Db) (eid now1 now2 : Nat) :
    ((completeEntry (completeEntry s eid now1).1 eid now2).1.queue_entries.map
        (fun e => (e.id, e.status))
      = (completeEntry s eid now1).1.queue_entries.map
          (fun e => (e.id, e.status))) ∧
    (∀ e ∈ (completeEntry s eid now1).1.queue_entries, e.id = eid →
        e.status = EntryStatus.completed) ∧
    (completeEntry (completeEntry s eid now1).1 eid now2).2
      = { httpStatus := 200, success := true } := by
  refine ⟨?_, ?_, rfl⟩
  · rw [completeEntry_entries, completeEntry_entries, List.map_map,
      List.map_map, List.map_map]
    apply List.map_congr_left
    intro x _
    by_cases hid : x.id = eid
    · simp [Function.comp, completeRow, hid]
    · simp [Function.comp, completeRow, hid]
  · intro x hx hid
    rw [completeEntry_entries] at hx
    rcases List.mem_map.mp hx with ⟨y, _, hyx⟩
    rw [← hyx] at hid ⊢
    rw [completeRow_id] at hid
    unfold completeRow
    rw [if_pos hid]

theorem c8_complete_idempotent_witness :
    (completeEntry (completeEntry (joinQueue initDb exampleReq 0).1 1 3).1 1 9).1.queue_entries.map
        (fun e => (e.id, e.status))
      = (completeEntry (joinQueue initDb exampleReq 0).1 1 3).1.queue_entries.map
          (fun e => (e.id, e.status)) :=
  (c8_complete_idempotent (joinQueue initDb exampleReq 0).1 1 3 9).1

/-- A join that passes the field guard is never answered with the 400
rejection: both remaining branches insert and answer `ok`. -/
theorem joinQueue_ok_of_valid (s : Db) (req : JoinRequest) (now : Nat)
    (hval : joinMissingFields req = false) :
    (joinQueue s req now).2 ≠ JoinResult.badRequest := by
  unfold joinQueue
  rw [if_neg (by simp [hval])]
  dsimp only
  cases hfind : findActiveQueue s (req.vendorId.getD 0) <;> simp

/-- C2 counterexample: in the empty store, vendor 5 resolves to no vendor at
all — so certainly not to one accepting orders — yet the join is admitted: a
ticket is returned and an entry is inserted.  The join handler never consults
the presence gate. -/
theorem c2_counterexample :
    vendorAcceptingOrders initDb 5 = false ∧
    exampleReq.vendorId = some 5 ∧
    (joinQueue initDb exampleReq 0).2 = JoinResult.ok
      { queueEntryId := 1, queueNumber := 1, position := 1, estimatedWait := 5 } ∧
    (joinQueue initDb exampleReq 0).1.queue_entries.length = 1 := by
  decide

/-- C2 (amended): the join endpoint does not consult the Vendor Presence
Gate.  Every request passing the field guard is admitted — one entry is
inserted — and the response is entirely independent of the vendors table, so
a vendor that is not accepting orders (or does not exist) is admitted all the
same. -/
theorem c2_join_ignores_presence_gate (s : Db) (vs : List VendorRow)
    (req : JoinRequest) (now : Nat) (hval : joinMissingFields req = false) :
    (∃ r : JoinOk, (joinQueue s req now).2 = JoinResult.ok r) ∧
    (joinQueue s req now).1.queue_entries.length
      = s.queue_entries.length + 1 ∧
    (joinQueue { s with vendors := vs } req now).2 = (joinQueue s req now).2 := by
  refine ⟨?_, ?_, ?_⟩
  · cases hres : (joinQueue s req now).2 with
    | badRequest => exact absurd hres (joinQueue_ok_of_valid s req now hval)
    | ok r => exact ⟨r, rfl⟩
  · unfold joinQueue
    rw [if_neg (by simp [hval])]
    dsimp only
    cases hfind : findActiveQueue s (req.vendorId.getD 0) with
    | none =>
        dsimp only
        rw [processJoin_entries, List.length_append]
        rfl
    | some q =>
        dsimp only
        rw [processJoin_entries, List.length_append]
        rfl
  · unfold joinQueue
    rw [if_neg (by simp [hval]), if_neg (by simp [hval])]
    dsimp only
    have hsame : findActiveQueue { s with vendors := vs } (req.vendorId.getD 0)
        = findActiveQueue s (req.vendorId.getD 0) := rfl
    rw [hsame]
    cases hfind : findActiveQueue s (req.vendorId.getD 0) <;> rfl

theorem c2_join_ignores_presence_gate_witness :
    (∃ r : JoinOk, (joinQueue initDb exampleReq 0).2 = JoinResult.ok r) ∧
    (joinQueue initDb exampleReq 0).1.queue_entries.length
      = initDb.queue_entries.length + 1 ∧
    (joinQueue { initDb with vendors := [{ id := 5, isOnline := false }] }
        exampleReq 0).2 = (joinQueue initDb exampleReq 0).2 :=
  c2_join_ignores_presence_gate initDb [{ id := 5, isOnline := false }]
    exampleReq 0 (by decide)

/-- C5 counterexample: completing an id for which no entry exists (99 in the
empty store) does not surface a 404-equivalent: the handler runs the UPDATE,
matches nothing, and still answers HTTP 200 `{success: true}`. -/
theorem c5_counterexample :
    initDb.queue_entries = [] ∧
    (completeEntry initDb 99 0).2 = { httpStatus := 200, success := true } ∧
    (completeEntry initDb 99 0).2.httpStatus ≠ 404 ∧
    (completeEntry initDb 99 0).1 = initDb := by
  decide

/-- C5 (amended): a status lookup for an unknown `queueNumber`+`vendorId` pair
returns not-found (404) with no partial data and no state change; a complete
call for an unknown `queueEntryId` also changes no state, but answers
HTTP 200 success rather than a 404-equivalent. -/
theorem c5_unknown_lookups (s : Db) (n : Nat) (v : Int) (eid now : Nat)
    (hs : findStatusEntry s n v = none)
    (he : ∀ e ∈ s.queue_entries, e.id ≠ eid) :
    queueStatus s n v = (s, StatusResult.notFound) ∧
    (completeEntry s eid now).1 = s ∧
    (completeEntry s eid now).2 = { httpStatus := 200, success := true } := by
  refine ⟨?_, ?_, rfl⟩
  · unfold queueStatus
    rw [hs]
  · have hmap : s.queue_entries.map (completeRow eid now) = s.queue_entries := by
      have hfix : ∀ x ∈ s.queue_entries, completeRow eid now x = id x :=
        fun x hx => by
          unfold completeRow
          rw [if_neg (he x hx)]
          rfl
      rw [List.map_congr_left hfix, List.map_id]
    show ({ s with queue_entries := s.queue_entries.map (completeRow eid now) } : Db) = s
    rw [hmap]

theorem c5_unknown_lookups_witness :
    queueStatus initDb 3 5 = (initDb, StatusResult.notFound) ∧
    (completeEntry initDb 99 0).1 = initDb ∧
    (completeEntry initDb 99 0).2 = { httpStatus := 200, success := true } :=
  c5_unknown_lookups initDb 3 5 99 0 (by decide) (by decide)

/-- C6 counterexample: a request supplying all three fields, with the defined
non-negative total `0`, is rejected by the guard (`0` is JavaScript-falsy),
contradicting the claim that any such request passes validation. -/
theorem c6_counterexample :
    exampleReqZero.vendorId = some 5 ∧
    exampleReqZero.items = some [exampleItem] ∧
    exampleReqZero.totalAmount = some 0 ∧
    (joinQueue initDb exampleReqZero 0).2 = JoinResult.badRequest := by
  decide

/-- C6 (amended): the join guard rejects — before touching the store — iff
one of `vendorId`, `items`, `totalAmount` is JavaScript-falsy: absent, or a
zero number (`vendorId: 0`, `totalAmount: 0`); an array value for `items`,
even empty, passes.  All other requests pass validation. -/
theorem c6_validation_falsy (s : Db) (req : JoinRequest) (now : Nat) :
    ((joinQueue s req now).2 = JoinResult.badRequest ↔
      (vendorIdTruthy req.vendorId = false ∨ itemsTruthy req.items = false ∨
       totalAmountTruthy req.totalAmount = false)) ∧
    ((joinQueue s req now).2 = JoinResult.badRequest →
      (joinQueue s req now).1 = s) := by
  have hchar : joinMissingFields req = true ↔
      (vendorIdTruthy req.vendorId = false ∨ itemsTruthy req.items = false ∨
       totalAmountTruthy req.totalAmount = false) := by
    unfold joinMissingFields
    cases hvt : vendorIdTruthy req.vendorId <;>
      cases hit : itemsTruthy req.items <;>
        cases htt : totalAmountTruthy req.totalAmount <;> simp
  constructor
  · constructor
    · intro hbad
      by_cases hval : joinMissingFields req = true
      · exact hchar.mp hval
      · have hval' : joinMissingFields req = false := by
          cases hv : joinMissingFields req with
          | true => exact absurd hv hval
          | false => rfl
        exact absurd hbad (joinQueue_ok_of_valid s req now hval')
    · intro hor
      unfold joinQueue
      rw [if_pos (hchar.mpr hor)]
  · intro hbad
    by_cases hval : joinMissingFields req = true
    · unfold joinQueue
      rw [if_pos hval]
    · have hval' : joinMissingFields req = false := by
        cases hv : joinMissingFields req with
        | true => exact absurd hv hval
        | false => rfl
      exact absurd hbad (joinQueue_ok_of_valid s req now hval')

/-- C10: on a successful poll tick with a previously observed (hence
positive) position, the "moved up" notification fires exactly when the
freshly received position is strictly smaller; it never fires when the new
position is equal or greater. -/
theorem c10_poller_moved_up (p n : Int) (hp : 1 ≤ p) :
    (pollTickMovedUp true (some p) n = true ↔ n < p) ∧
    (p ≤ n → pollTickMovedUp true (some p) n = false) := by
  unfold pollTickMovedUp
  constructor
  · simp [show p ≠ 0 by omega]
  · intro hle
    simp [show ¬(n < p) by omega]

theorem c10_poller_moved_up_witness :
    pollTickMovedUp true (some 2) 1 = true ∧
    pollTickMovedUp true (some 3) 3 = false :=
  ⟨(c10_poller_moved_up 2 1 (by decide)).1.mpr (by decide),
   (c10_poller_moved_up 3 3 (by decide)).2 (by decide)⟩

end StreatsQueue
